import Mathlib

/-
Verification of the task-identity resolution and time-block scheduling engine
of the Task Extender plugin.  Every definition below is a shallow embedding of
a function of the TypeScript source (file and symbol named in its doc
comment); JavaScript strings are modelled as lists of Unicode scalar values,
with UTF-16 code-unit granularity recovered through `toUnits` where the
source depends on it, JavaScript numbers on the scheduling paths as rationals,
and JavaScript 32-bit integer coercion as `toInt32`.
-/

namespace TaskExtender

/-- Model of a JavaScript string: the list of Unicode scalar values. -/
abbrev Str := List Char

/-- UTF-16 code units of one scalar value (astral code points become a
surrogate pair), used to model `charCodeAt`, `length` and indexing. -/
def utf16Units (c : Char) : List Nat :=
  if c.toNat < 0x10000 then [c.toNat]
  else
    let v := c.toNat - 0x10000
    [0xD800 + v / 0x400, 0xDC00 + v % 0x400]

/-- The UTF-16 code-unit sequence of a string. -/
def toUnits (s : Str) : List Nat := (s.map utf16Units).flatten

/-- JavaScript `String.prototype.includes`. -/
def occursIn (pat : Str) : Str → Bool
  | [] => pat.isEmpty
  | c :: rest => pat.isPrefixOf (c :: rest) || occursIn pat rest

/-- JavaScript `String.prototype.trim` (whitespace at both ends removed). -/
def trimChars (s : Str) : Str :=
  ((s.dropWhile Char.isWhitespace).reverse.dropWhile Char.isWhitespace).reverse

/-- The regex fragment `\s*`: greedy whitespace skip. -/
def skipWs (s : Str) : Str := s.dropWhile Char.isWhitespace

/-- Value of a decimal digit run, as computed by `parseInt` on a `\d+` match. -/
def digitsToNat (ds : Str) : Nat :=
  ds.foldl (fun n c => n * 10 + (c.toNat - 48)) 0

/-- U+FE0F VARIATION SELECTOR-16, the second code point of the emoji
`0x2714`, `0x270D`, `0x26A0` and `0x23F1` sequences in the source. -/
def vs16 : Char := Char.ofNat 0xFE0F

/-- U+23F1 STOPWATCH, first code point of the time-estimate marker. -/
def stopwatchChar : Char := Char.ofNat 0x23F1

namespace TaskParser

/-- Embedding of the time-estimate record of `TaskParser.TaskMetadata`
(src/unnamed/part_000). -/
structure TimeEstimate where
  days : Nat
  hours : Nat
  minutes : Nat
  totalMinutes : Nat
deriving Repr, DecidableEq

/-- Embedding of `TaskMetadata` of `TaskParser`.  Dates are modelled by the matched
`YYYY-MM-DD` source text (the `new Date(...)` wrapper adds nothing the spec
relies on); absent optional fields are `none`. -/
structure TaskMetadata where
  originalDate : Option Str := none
  timeEstimate : Option TimeEstimate := none
  dueDate : Option Str := none
  completed : Option Bool := none
deriving Repr, DecidableEq

/-- The slice of the plugin settings the parser consumes. -/
structure PluginSettings where
  originalDateEmoji : Str
deriving Repr, DecidableEq

/-- Scan for the first occurrence of the estimate marker (U+23F1 U+FE0F) and
return the text after it; models where the regex of `parseTimeEstimate`
anchors its match. -/
def findEstimateMarker : Str → Option Str
  | [] => none
  | c :: rest =>
    if c = stopwatchChar then
      match rest with
      | v :: rest2 => if v = vs16 then some rest2 else findEstimateMarker rest
      | [] => none
    else findEstimateMarker rest

/-- The regex fragment `(?:(\d+)X)?` at the head of `s` for unit letter `X`:
a maximal nonempty digit run immediately followed by the unit letter; on
failure the optional group matches empty and the input is left untouched. -/
def parseNumToken (unitChar : Char) (s : Str) : Option Nat × Str :=
  let ds := s.takeWhile Char.isDigit
  let rest := s.dropWhile Char.isDigit
  match ds, rest with
  | [], _ => (none, s)
  | _ :: _, c :: rest2 =>
    if c = unitChar then (some (digitsToNat ds), rest2) else (none, s)
  | _ :: _, [] => (none, s)

/-- Embedding of `TaskParser.parseTimeEstimate` (src/unnamed/part_000, lines 448-467):
matches `⏱️\s*(?:(\d+)d)?\s*(?:(\d+)h)?\s*(?:(\d+)m)?` and on a match
returns the estimate with `totalMinutes = days*24*60 + hours*60 + minutes`;
since every token is optional, the match succeeds whenever the marker
occurs, with absent tokens parsed as 0. -/
def parseTimeEstimate (text : Str) : Option TimeEstimate :=
  match findEstimateMarker text with
  | none => none
  | some rest =>
    let p1 := parseNumToken 'd' (skipWs rest)
    let p2 := parseNumToken 'h' (skipWs p1.2)
    let p3 := parseNumToken 'm' (skipWs p2.2)
    let days := p1.1.getD 0
    let hours := p2.1.getD 0
    let minutes := p3.1.getD 0
    some { days := days, hours := hours, minutes := minutes,
           totalMinutes := days * 24 * 60 + hours * 60 + minutes }

/-- Exactly `n` decimal digits at the head of the input (regex `\d{n}`). -/
def takeDigitsExact : Nat → Str → Option (Str × Str)
  | 0, s => some ([], s)
  | _ + 1, [] => none
  | n + 1, c :: rest =>
    if c.isDigit then
      match takeDigitsExact n rest with
      | some (ds, r) => some (c :: ds, r)
      | none => none
    else none

/-- The regex fragment `(\d{4}-\d{2}-\d{2})` at the head of `s`, returning
the captured date text. -/
def matchDateAt (s : Str) : Option Str :=
  match takeDigitsExact 4 s with
  | some (y, '-' :: r1) =>
    match takeDigitsExact 2 r1 with
    | some (mo, '-' :: r2) =>
      match takeDigitsExact 2 r2 with
      | some (d, _) => some (y ++ '-' :: mo ++ '-' :: d)
      | _ => none
    | _ => none
  | _ => none

/-- Scan of the regex `marker\s*(\d{4}-\d{2}-\d{2})`: at each position try
the marker followed by optional whitespace and a strict date; on failure
advance one position, as the regex engine does. -/
def findDatePattern (marker : Str) : Str → Option Str
  | [] => none
  | c :: rest =>
    match
      (if marker.isPrefixOf (c :: rest) then
        matchDateAt (skipWs ((c :: rest).drop marker.length))
      else none) with
    | some d => some d
    | none => findDatePattern marker rest

/-- Embedding of `TaskParser.parseOriginalDate`: the marker comes from the settings. -/
def parseOriginalDate (text : Str) (originalDateEmoji : Str) : Option Str :=
  findDatePattern originalDateEmoji text

/-- Embedding of `TaskParser.parseDueDate`: fixed marker `📅` (U+1F4C5). -/
def parseDueDate (text : Str) : Option Str :=
  findDatePattern [Char.ofNat 0x1F4C5] text

/-- The checked checkbox text `- [x]` tested by `parseTask`. -/
def checkedBoxText : Str := ['-', ' ', '[', 'x', ']']

/-- Embedding of `TaskParser.parseTask` (src/unnamed/part_000, lines 488-513): each
marker is matched independently; a missed pattern leaves its field absent;
`completed` is whether the line contains `- [x]`. -/
def parseTask (taskText : Str) (settings : PluginSettings) : TaskMetadata :=
  { originalDate := parseOriginalDate taskText settings.originalDateEmoji,
    timeEstimate := parseTimeEstimate taskText,
    dueDate := parseDueDate taskText,
    completed := some (occursIn checkedBoxText taskText) }

end TaskParser

namespace TaskManager

open TaskParser

/-- The alternatives of `METADATA_EMOJI_PATTERN` (src/src/timeline/
TaskManager.ts, line 22), in source order, by exact code points. -/
def metadataEmojis : List Str :=
  [[Char.ofNat 0x1F4C5], [Char.ofNat 0x2705], [Char.ofNat 0x1F194],
   [Char.ofNat 0x1F4DD], [Char.ofNat 0x23EB], [Char.ofNat 0x1F53C],
   [Char.ofNat 0x1F53D], [Char.ofNat 0x23EC], [Char.ofNat 0x1F4CC],
   [Char.ofNat 0x26A1], [Char.ofNat 0x2795], [Char.ofNat 0x23F3],
   [Char.ofNat 0x1F4E4], [Char.ofNat 0x1F4E5], [Char.ofNat 0x1F4A4],
   [Char.ofNat 0x2757], [Char.ofNat 0x274C],
   [Char.ofNat 0x2714, Char.ofNat 0xFE0F], [Char.ofNat 0x23F0],
   [Char.ofNat 0x1F501], [Char.ofNat 0x1F502], [Char.ofNat 0x1F6EB],
   [Char.ofNat 0x1F6EC], [Char.ofNat 0x1F4CD], [Char.ofNat 0x1F550],
   [Char.ofNat 0x1F50D], [Char.ofNat 0x1F3AF], [Char.ofNat 0x1F3AB],
   [Char.ofNat 0x1F4AF], [Char.ofNat 0x1F465], [Char.ofNat 0x1F464],
   [Char.ofNat 0x1F4CB], [Char.ofNat 0x270D, Char.ofNat 0xFE0F],
   [Char.ofNat 0x1F449], [Char.ofNat 0x1F448],
   [Char.ofNat 0x26A0, Char.ofNat 0xFE0F],
   [Char.ofNat 0x23F1, Char.ofNat 0xFE0F]]

/-- First alternative of the list matching a prefix of `s`; returns the
remainder after it (regex alternation order). -/
def findFirstMatch : List Str → Str → Option Str
  | [], _ => none
  | e :: es, s => if e.isPrefixOf s then some (s.drop e.length) else findFirstMatch es s

/-- Match of `METADATA_EMOJI_PATTERN` at the head of `s`. -/
def matchEmojiAt (s : Str) : Option Str := findFirstMatch metadataEmojis s

/-- The lazy `.*?(?=EMOJI|$)` tail of the metadata regex: consume characters
(other than line terminators, which `.` never matches) until the lookahead
sees a metadata emoji or the end; `none` when a line terminator intervenes,
which makes the whole match fail. -/
def scanToEmoji : Str → Option Str
  | [] => some []
  | c :: rest =>
    if (matchEmojiAt (c :: rest)).isSome then some (c :: rest)
    else if c = '\n' ∨ c = '\r' then none
    else scanToEmoji rest

/-- Global replacement of `EMOJI .*?(?=EMOJI|$)` by the empty string, the
second `.replace` of `TaskManager.stripTaskMetadata`.  Fuel-driven so that
the definition evaluates by kernel reduction; each step consumes at least
one character, so fuel equal to the length suffices and the fuel-exhausted
branch is never reached when entered through `stripMetaScan`. -/
def stripMetaGo : Nat → Str → Str
  | 0, s => s
  | _ + 1, [] => []
  | fuel + 1, c :: rest =>
    match matchEmojiAt (c :: rest) with
    | some (' ' :: afterSpace) =>
      match scanToEmoji afterSpace with
      | some cont => stripMetaGo fuel cont
      | none => c :: stripMetaGo fuel rest
    | _ => c :: stripMetaGo fuel rest

/-- See `stripMetaGo`. -/
def stripMetaScan (s : Str) : Str := stripMetaGo s.length s

/-- The first `.replace` of `stripTaskMetadata`: drop a leading checkbox
`- [ ] ` or `- [x] ` (regex `^- \[[ x]\] `). -/
def stripCheckbox : Str → Str
  | '-' :: ' ' :: '[' :: c :: ']' :: ' ' :: rest =>
    if c = ' ' ∨ c = 'x' then rest
    else '-' :: ' ' :: '[' :: c :: ']' :: ' ' :: rest
  | s => s

/-- Embedding of `TaskManager.stripTaskMetadata` (src/src/timeline/TaskManager.ts,
lines 302-307): checkbox stripped, metadata-emoji segments stripped,
then trimmed — the canonical content of a line. -/
def stripTaskMetadata (taskText : Str) : Str :=
  trimChars (stripMetaScan (stripCheckbox taskText))

/-- One inner iteration block of the `levenshteinDistance` dynamic program:
given the character `x = str1[i-1]`, the suffix of `str2` from position `j`,
the suffix of row `i-1` from position `j-1`, and `cur = dp[i][j-1]`, emit
the entries `dp[i][j..n]`. -/
def levRowGo (x : Nat) (cur : Nat) : List Nat → List Nat → List Nat
  | y :: ys, pPrev :: pRest =>
    let up := pRest.headD 0
    let v := if x = y then pPrev else 1 + min (min up cur) pPrev
    v :: levRowGo x v ys pRest
  | _, _ => []

/-- Row-by-row evaluation of the `dp` table of
`TaskManager.levenshteinDistance` (lines 363-386). -/
def levRows (str2 : List Nat) : List Nat → List Nat → Nat → List Nat
  | [], prev, _ => prev
  | x :: xs, prev, i => levRows str2 xs (i :: levRowGo x i str2 prev) (i + 1)

/-- Embedding of `TaskManager.levenshteinDistance` over UTF-16 code-unit sequences
(JavaScript indexes and measures strings by code unit). -/
def levenshteinDistance (str1 str2 : List Nat) : Nat :=
  (levRows str2 str1 (List.range (str2.length + 1)) 1).getLastD 0

/-- Embedding of `TaskManager.areTasksSimilar` (lines 357-361).  `Math.floor(len * 0.2)`
equals `len / 5` (truncated division) for every length a JavaScript string
can have, since the rounding error of the double `0.2` stays below half an
ulp of the product. -/
def areTasksSimilar (text1 text2 : Str) : Bool :=
  let u1 := toUnits text1
  let u2 := toUnits text2
  let maxDistance := min (max u1.length u2.length / 5) 7
  levenshteinDistance u1 u2 ≤ maxDistance

/-- JavaScript `ToInt32` (the effect of `x & x` and of bitwise shifts). -/
def toInt32 (n : Int) : Int :=
  let m := n % 4294967296
  if m < 2147483648 then m else m - 4294967296

/-- One iteration of `TaskManager.generateHash` (lines 407-415):
`hash = ((hash << 5) - hash) + char; hash = hash & hash`. -/
def hashStep (h : Int) (c : Nat) : Int :=
  toInt32 (toInt32 (h * 32) - h + c)

/-- Digit characters of `Number.prototype.toString(36)` (0-9 then a-z). -/
def base36Digit (n : Nat) : Char :=
  if n < 10 then Char.ofNat (48 + n) else Char.ofNat (87 + n)

/-- Base-36 rendering, fuel-driven for kernel evaluation; fuel `n` is enough
since the value shrinks by a factor of 36 each step. -/
def toBase36Go : Nat → Nat → Str
  | 0, n => [base36Digit (n % 36)]
  | fuel + 1, n =>
    if n < 36 then [base36Digit n]
    else toBase36Go fuel (n / 36) ++ [base36Digit (n % 36)]

/-- See `toBase36Go`. -/
def toBase36 (n : Nat) : Str := toBase36Go n n

/-- Embedding of `TaskManager.generateHash`: 32-bit rolling hash over the UTF-16 code
units, rendered `task_` + base-36 of the absolute value. -/
def generateHash (input : Str) : Str :=
  "task_".toList ++ toBase36 ((toUnits input).foldl hashStep 0).natAbs

/-- Embedding of `TaskIdentity` (src/src/timeline/TaskManager.ts, lines 7-13). -/
structure TaskIdentity where
  identifier : Str
  originalContent : Str
  metadata : TaskMetadata
  filePath : Str
  lineNumber : Nat
deriving Repr, DecidableEq

/-- Embedding of `TaskManager.generateTaskIdentity` (lines 288-300): hash of
`canonicalContent|filePath` (the line number is carried but not hashed). -/
def generateTaskIdentity (taskText filePath : Str) (lineNumber : Nat)
    (settings : PluginSettings) : TaskIdentity :=
  let baseContent := stripTaskMetadata taskText
  let hashInput := baseContent ++ '|' :: filePath
  { identifier := generateHash hashInput,
    originalContent := taskText,
    metadata := parseTask taskText settings,
    filePath := filePath,
    lineNumber := lineNumber }

end TaskManager

namespace TimeBlockManager

open TaskParser TaskManager

/-- Embedding of `TaskStatus` (src/src/timeline/TimelineInterfaces.ts, lines 44-48). -/
inductive TaskStatus where
  | NORMAL
  | FOUND_BY_CONTENT
  | NOT_FOUND
deriving Repr, DecidableEq

/-- In-memory `TimeBlock` (TimelineInterfaces.ts, lines 35-41): decimal
hours, tasks resolved to `TaskIdentity`. -/
structure TimeBlock where
  id : Str
  title : Str
  startTime : ℚ
  endTime : ℚ
  tasks : List TaskIdentity
deriving Repr, DecidableEq

/-- Embedding of `TimeBlockTaskIdentity` (TimelineInterfaces.ts, lines 51-53): a resolved
task together with its resolution status. -/
structure TimeBlockTaskIdentity where
  identity : TaskIdentity
  status : TaskStatus
deriving Repr, DecidableEq

/-- A loaded block: persisted fields spread unchanged, tasks processed. -/
structure LoadedBlock where
  id : Str
  title : Str
  startTime : ℚ
  endTime : ℚ
  tasks : List TimeBlockTaskIdentity
deriving Repr, DecidableEq

/-- One `{id, text}` task reference inside the persisted `timeBlocks` JSON
(either field may be `null`). -/
structure PersistedTask where
  id : Option Str
  text : Option Str
deriving Repr, DecidableEq

/-- One persisted block of the fenced JSON object. -/
structure PersistedBlock where
  id : Str
  title : Str
  startTime : ℚ
  endTime : ℚ
  tasks : List PersistedTask
deriving Repr, DecidableEq

/-- Contents of the fenced ` ```timeBlocks ` section: either text that
`JSON.parse` rejects, or the decoded block map (association list in document
order, as `Object.entries` yields it). -/
inductive FencedPayload where
  | malformed
  | blocksData (data : List (Str × PersistedBlock))
deriving Repr, DecidableEq

/-- The document of the day, split structurally around its fenced `timeBlocks`
section: `payload = none` models a document with no such section.  The JSON
codec itself is treated as faithful, so the section carries the decoded
payload rather than raw text. -/
structure DayDoc where
  pre : Str
  payload : Option FencedPayload
  post : Str
deriving Repr, DecidableEq

/-- JavaScript truthiness of a nullable string. -/
def truthy : Option Str → Option Str
  | some s => if s = [] then none else some s
  | none => none

/-- Task reference written by `TimeBlockManager.saveTimeBlocks`
(TimelineInterfaces.ts, lines 155-161): the identifier, and the original
line with only the leading checkbox stripped and the result trimmed. -/
def saveTaskRef (t : TaskIdentity) : PersistedTask :=
  { id := some t.identifier,
    text := some (trimChars (stripCheckbox t.originalContent)) }

/-- The data written by `saveTimeBlocks`: every block serialized with its
fields spread unchanged and its tasks reduced to `{id, text}` pairs. -/
def saveTimeBlocksData (blocks : List (Str × TimeBlock)) :
    List (Str × PersistedBlock) :=
  blocks.map fun p =>
    (p.1,
     { id := p.2.id, title := p.2.title, startTime := p.2.startTime,
       endTime := p.2.endTime, tasks := p.2.tasks.map saveTaskRef })

/-- Document effect of `saveTimeBlocks` (TimelineInterfaces.ts, lines
174-185): replace the fenced section when the document has one, else append
one after a blank line. -/
def saveTimeBlocksDoc (doc : DayDoc) (blocks : List (Str × TimeBlock)) :
    DayDoc :=
  match doc.payload with
  | some _ =>
    { doc with payload := some (.blocksData (saveTimeBlocksData blocks)) }
  | none =>
    { pre := doc.pre ++ '\n' :: '\n' :: [],
      payload := some (.blocksData (saveTimeBlocksData blocks)),
      post := [] }

/-- Resolution of one persisted task reference by `loadTimeBlocks`
(TimelineInterfaces.ts, lines 85-131): by id in the registry (`NORMAL`),
else by content (`FOUND_BY_CONTENT`), else a placeholder (`NOT_FOUND`).
`reg` is the task cache lookup (`TaskManager.getTask`), `find` the fuzzy
content lookup (`findTasksByContent`), and `ph` stands for the
`placeholder-${Date.now()}-${Math.random()...}` fresh identifier. -/
def processTaskRef (reg : Str → Option TaskIdentity)
    (find : Str → List TaskIdentity) (ph : Str) (pt : PersistedTask) :
    TimeBlockTaskIdentity :=
  let byId : Option TaskIdentity :=
    match truthy pt.id with
    | some i => reg i
    | none => none
  match byId with
  | some ti => { identity := ti, status := .NORMAL }
  | none =>
    let byText : Option TaskIdentity :=
      match truthy pt.text with
      | some tx =>
        match find tx with
        | ti :: _ => some ti
        | [] => none
      | none => none
    match byText with
    | some ti => { identity := ti, status := .FOUND_BY_CONTENT }
    | none =>
      let taskContent :=
        match truthy pt.text with
        | some tx => tx
        | none =>
          "Task with ID: ".toList ++
            (match pt.id with | some s => s | none => "null".toList)
      { identity :=
          { identifier := (match truthy pt.id with | some i => i | none => ph),
            originalContent := "- [ ] ".toList ++ taskContent,
            metadata :=
              { timeEstimate :=
                  some { days := 0, hours := 0, minutes := 0, totalMinutes := 0 } },
            filePath := [],
            lineNumber := 0 },
        status := .NOT_FOUND }

/-- One block processed by `loadTimeBlocks`: persisted fields spread
unchanged, tasks resolved. -/
def loadBlock (reg : Str → Option TaskIdentity)
    (find : Str → List TaskIdentity) (ph : Str) (pb : PersistedBlock) :
    LoadedBlock :=
  { id := pb.id, title := pb.title, startTime := pb.startTime,
    endTime := pb.endTime, tasks := pb.tasks.map (processTaskRef reg find ph) }

/-- Embedding of `TimeBlockManager.loadTimeBlocks` (TimelineInterfaces.ts, lines 65-148)
on a freshly constructed manager (block map initially empty): a missing
section leaves the map empty, a `JSON.parse` failure is caught leaving the
map empty, and otherwise every entry of the decoded object is processed. -/
def loadTimeBlocks (reg : Str → Option TaskIdentity)
    (find : Str → List TaskIdentity) (ph : Str) (doc : DayDoc) :
    List (Str × LoadedBlock) :=
  match doc.payload with
  | none => []
  | some .malformed => []
  | some (.blocksData data) => data.map fun p => (p.1, loadBlock reg find ph p.2)

/-- Embedding of `TimeBlockManager.calculateBlockPercentage` (TimelineInterfaces.ts,
lines 251-265): tasks with an estimate contribute their `totalMinutes`,
others nothing; the pair is `(percentage, totalMinutes)`. -/
def calculateBlockPercentage (block : TimeBlock) : ℚ × ℚ :=
  let totalTaskMinutes : ℚ :=
    block.tasks.foldl
      (fun acc t =>
        match t.metadata.timeEstimate with
        | some e => acc + e.totalMinutes
        | none => acc) 0
  let blockDurationMinutes : ℚ := (block.endTime - block.startTime) * 60
  (totalTaskMinutes / blockDurationMinutes * 100, totalTaskMinutes)

end TimeBlockManager

namespace TaskDragManager

open TaskManager

/-- A task entry of a block as `TaskDragManager.handleTaskDrop` sees it
(src/src/timeline/TaskDragManager.ts, line 113): either a bare identifier
string or a `{id, text}` object (`timeSlot` is carried but never read). -/
inductive TaskRef where
  | str (s : Str)
  | info (id : Option Str) (text : Option Str) (timeSlot : Option ℚ)
deriving Repr, DecidableEq, Inhabited

/-- JavaScript `a || b` on a nullable string against a string default. -/
def jsStrOr (a : Option Str) (b : Str) : Str :=
  match a with
  | some s => if s = [] then b else s
  | none => b

/-- Embedding of `TaskDragManager.getTaskIdentifier` (lines 113-115): a bare
string is itself the identifier; an object resolves to `task.id`, else
`task.text`, else the empty string, under JavaScript truthiness. -/
def getTaskIdentifier : TaskRef → Str
  | .str s => s
  | .info id text _ => jsStrOr id (jsStrOr text [])

/-- The `TimeBlock` of src/src/timeline/TimeBlockManager.ts (lines 11-17),
the revision `TaskDragManager` imports: integer-hour bounds and
polymorphic task references. -/
structure DragBlock where
  id : Str
  title : Str
  startHour : ℚ
  endHour : ℚ
  tasks : List TaskRef
deriving Repr, DecidableEq, Inhabited

/-- The `Map<string, TimeBlock>` handed to the drop handler, as an
association list in insertion order with pairwise-distinct keys. -/
abbrev BlockMap := List (Str × DragBlock)

/-- Lookup modelling `Map.get` and `Map.has` by key. -/
def lookupBlock (blocks : BlockMap) (key : Str) : Option DragBlock :=
  (blocks.find? fun p => p.1 = key).map (·.2)

/-- The `timeBlocks.forEach(... filter ...)` removal loop of
`handleTaskDrop` (lines 37-42 and 54-59): drop every task reference that
resolves to the identifier, in every block. -/
def removeTaskEverywhere (taskIdentifier : Str) (blocks : BlockMap) :
    BlockMap :=
  blocks.map fun p =>
    (p.1, { p.2 with
            tasks := p.2.tasks.filter fun r =>
              ¬ getTaskIdentifier r = taskIdentifier })

/-- The `timeBlock.tasks.push(taskIdentifier)` of line 45, applied to the
map entry of the target block. -/
def pushTaskTo (target : Str) (taskIdentifier : Str) (blocks : BlockMap) :
    BlockMap :=
  blocks.map fun p =>
    if p.1 = target then
      (p.1, { p.2 with tasks := p.2.tasks ++ [TaskRef.str taskIdentifier] })
    else p

/-- Embedding of `TaskDragManager.handleTaskDrop` (lines 8-75), restricted to the state
the claims speak about: the block map and whether `saveTimeBlocks` runs.
`cache` is the task cache (`getTaskCache().get`).  The id-embedding branch
(lines 15-30) rewrites the source line of the task and the cache but touches
the `tasks` list of no block, so it does not appear in the returned state;
rendering
(lines 47-51, 61-68) is pure DOM work. -/
def handleTaskDrop (cache : Str → Option TaskIdentity) (taskIdentifier : Str)
    (blocks : BlockMap) (targetBlockId : Option Str) (isUnscheduled : Bool) :
    BlockMap × Bool :=
  match cache taskIdentifier with
  | none => (blocks, false)
  | some _ =>
    let tgt := TimeBlockManager.truthy targetBlockId
    let blocks' :=
      match tgt with
      | some tid =>
        match lookupBlock blocks tid with
        | some tb =>
          if tb.tasks.any fun r => getTaskIdentifier r = taskIdentifier then
            blocks
          else
            pushTaskTo tid taskIdentifier
              (removeTaskEverywhere taskIdentifier blocks)
        | none =>
          if isUnscheduled then removeTaskEverywhere taskIdentifier blocks
          else blocks
      | none =>
        if isUnscheduled then removeTaskEverywhere taskIdentifier blocks
        else blocks
    (blocks', tgt.isSome || isUnscheduled)

/-- One drop gesture: the cache at that moment (it changes between drops),
the dragged identifier, the drop target, and the unscheduled flag. -/
structure DropOp where
  cache : Str → Option TaskIdentity
  taskIdentifier : Str
  targetBlockId : Option Str
  isUnscheduled : Bool

/-- A sequence of drop gestures applied to the block map. -/
def applyDrops (ops : List DropOp) (blocks : BlockMap) : BlockMap :=
  ops.foldl
    (fun bs op =>
      (handleTaskDrop op.cache op.taskIdentifier bs op.targetBlockId
        op.isUnscheduled).1)
    blocks

/-- Number of blocks whose tasks list holds a reference resolving to `t`. -/
def blocksContaining (t : Str) (blocks : BlockMap) : Nat :=
  blocks.countP fun p => p.2.tasks.any fun r => getTaskIdentifier r = t

/-- The at-most-one-block invariant. -/
def AtMostOneBlock (blocks : BlockMap) : Prop :=
  ∀ t, blocksContaining t blocks ≤ 1

/-- The keys of a JavaScript `Map` are pairwise distinct. -/
def KeysNodup (blocks : BlockMap) : Prop := (blocks.map Prod.fst).Nodup

end TaskDragManager

namespace Gestures

open TimeBlockManager

/-- Embedding of `Math.round(x * 4) / 4`, the quarter-hour quantization of
`setupBlockDragHandlers` and `setupBlockResizeHandlers`
(TimelineInterfaces.ts, lines 405, 464, 473); `round` is `⌊x + 1/2⌋`,
matching `Math.round`. -/
def quantizeQuarter (x : ℚ) : ℚ := ((round (x * 4) : ℤ) : ℚ) / 4

/-- Start and end of one block during a gesture. -/
structure BlockTimes where
  startTime : ℚ
  endTime : ℚ
deriving Repr, DecidableEq

/-- One `mousemove` of a block drag (TimelineInterfaces.ts, lines 398-417):
`x` is the pointer position in hours (`newTop / hourHeight`); the shift is
applied only when the whole block stays inside `[0, 24]`, and both bounds
move together by the duration captured at `mousedown` (`originalBlock`). -/
def moveStep (orig : BlockTimes) (b : BlockTimes) (x : ℚ) : BlockTimes :=
  let newStartTime := quantizeQuarter x
  let duration := orig.endTime - orig.startTime
  if 0 ≤ newStartTime ∧ newStartTime + duration ≤ 24 then
    { startTime := newStartTime, endTime := newStartTime + duration }
  else b

/-- One `mousemove` of a top-edge resize (lines 462-470): only the start
moves, and only while `0 <= newStartTime < endTime`. -/
def resizeTopStep (b : BlockTimes) (x : ℚ) : BlockTimes :=
  let newStartTime := quantizeQuarter x
  if 0 ≤ newStartTime ∧ newStartTime < b.endTime then
    { b with startTime := newStartTime }
  else b

/-- One `mousemove` of a bottom-edge resize (lines 471-479): only the end
moves, and only while `startTime < newEndTime <= 24`. -/
def resizeBottomStep (b : BlockTimes) (x : ℚ) : BlockTimes :=
  let newEndTime := quantizeQuarter x
  if newEndTime ≤ 24 ∧ b.startTime < newEndTime then
    { b with endTime := newEndTime }
  else b

/-- One pointer gesture: its kind is fixed at `mousedown` and it carries the
hour-valued pointer positions of its `mousemove` events. -/
inductive BlockGesture where
  | move (xs : List ℚ)
  | resizeTop (xs : List ℚ)
  | resizeBottom (xs : List ℚ)

/-- Effect of a whole gesture on a block; for a move, `originalBlock` is the
block as captured at `mousedown`. -/
def applyGesture (b : BlockTimes) : BlockGesture → BlockTimes
  | .move xs => xs.foldl (moveStep b) b
  | .resizeTop xs => xs.foldl resizeTopStep b
  | .resizeBottom xs => xs.foldl resizeBottomStep b

/-- A sequence of gestures, each starting from the committed state of the
previous one. -/
def applyGestures (b : BlockTimes) (gs : List BlockGesture) : BlockTimes :=
  gs.foldl applyGesture b

/-- A time is a whole number of quarter hours. -/
def QuarterAligned (q : ℚ) : Prop := ∃ k : ℤ, q = k / 4

/-- The block-bounds invariant: quarter-aligned and `0 ≤ start < end ≤ 24`. -/
def BlockInv (b : BlockTimes) : Prop :=
  QuarterAligned b.startTime ∧ QuarterAligned b.endTime ∧
    0 ≤ b.startTime ∧ b.startTime < b.endTime ∧ b.endTime ≤ 24

end Gestures

namespace Samples

open TaskParser TaskManager TimeBlockManager TaskDragManager Gestures

/-- Default settings: original-date marker `📋` (U+1F4CB, the default named
in the README). -/
def settings0 : PluginSettings := ⟨[Char.ofNat 0x1F4CB]⟩

/-- The two-code-point time-estimate marker `⏱️`. -/
def estimateMarker : Str := [stopwatchChar, vs16]

/-- A checklist line with a 30-minute estimate. -/
def milkLine1 : Str := "- [ ] Buy milk ⏱️ 30m".toList

/-- The same canonical content, checked, with a due date instead. -/
def milkLine2 : Str := "- [x] Buy milk 📅 2024-01-01".toList

/-- A line carrying the estimate marker but no day/hour/minute token. -/
def markerOnlyLine : Str := "- [ ] plan trip ⏱️".toList

/-- A line with a full `1d 2h 3m` estimate. -/
def fullEstimateLine : Str := "- [ ] write spec ⏱️ 1d 2h 3m".toList

/-- A line with no estimate marker at all. -/
def noMarkerLine : Str := "- [ ] no estimate here".toList

/-- Twenty ASCII characters. -/
def lenTwenty1 : Str := "abcdefghijklmnopqrst".toList

/-- Variant of `lenTwenty1` with exactly one substituted character. -/
def lenTwenty2 : Str := "abcdefghijklmnopqrsu".toList

/-- Variant of `lenTwenty1` with its last ten characters replaced by fresh ones
(edit distance 10). -/
def lenTwenty3 : Str := "abcdefghijZYXWVUTSRQ".toList

/-- A resolved 30-minute task as `TaskManager.createTask` would cache it. -/
def task30a : TaskIdentity :=
  { identifier := "task_kehzve".toList,
    originalContent := milkLine1,
    metadata :=
      { timeEstimate := some { days := 0, hours := 0, minutes := 30, totalMinutes := 30 },
        completed := some false },
    filePath := "f.md".toList,
    lineNumber := 3 }

/-- A second 30-minute task with a distinct identifier. -/
def task30b : TaskIdentity :=
  { identifier := "task_b2".toList,
    originalContent := "- [ ] Walk dog ⏱️ 30m".toList,
    metadata :=
      { timeEstimate := some { days := 0, hours := 0, minutes := 30, totalMinutes := 30 },
        completed := some false },
    filePath := "f.md".toList,
    lineNumber := 4 }

/-- A 09:00-10:00 block holding the given tasks. -/
def blockOneHour (tasks : List TaskIdentity) : TimeBlock :=
  { id := "block-1".toList, title := "Morning".toList,
    startTime := 9, endTime := 10, tasks := tasks }

/-- A day document with no fenced `timeBlocks` section. -/
def docNoSection : DayDoc := { pre := "# day".toList, payload := none, post := [] }

/-- A registry holding exactly `task30a`, keyed by its identifier. -/
def regA : Str → Option TaskIdentity :=
  fun s => if s = task30a.identifier then some task30a else none

/-- An empty fuzzy-lookup collaborator. -/
def findNone : Str → List TaskIdentity := fun _ => []

/-- A drop-handler block map with one empty block `b1`. -/
def dragMap1 : BlockMap :=
  [("b1".toList,
    { id := "b1".toList, title := "Morning".toList,
      startHour := 9, endHour := 10, tasks := [] })]

/-- A cache resolving only the identifier of `task30a`. -/
def cacheA : Str → Option TaskIdentity := regA

/-- A 9-to-10 block-bounds state. -/
def times0 : BlockTimes := { startTime := 9, endTime := 10 }

/-- A drop of `task30a` onto block `b1`. -/
def dropOp1 : DropOp :=
  { cache := cacheA, taskIdentifier := task30a.identifier,
    targetBlockId := some "b1".toList, isUnscheduled := false }

/-- The placeholder that reloading the saved reference of `task30a` against a
wiped registry produces. -/
def wipedPlaceholder : TimeBlockTaskIdentity where
  identity :=
    { identifier := task30a.identifier,
      originalContent := milkLine1,
      metadata :=
        { timeEstimate :=
            some { days := 0, hours := 0, minutes := 0, totalMinutes := 0 } },
      filePath := [],
      lineNumber := 0 }
  status := .NOT_FOUND

/-- A one-block map whose only task resolves in `regA`. -/
def roundTripBlocks : List (Str × TimeBlock) :=
  [("block-1".toList, blockOneHour [task30a])]

/-- The block that reloading the saved `blockOneHour [task30a]` against a
wiped registry produces. -/
def wipedLoadedBlock : LoadedBlock where
  id := "block-1".toList
  title := "Morning".toList
  startTime := 9
  endTime := 10
  tasks := [wipedPlaceholder]

end Samples

section Claims

open TaskParser TaskManager TimeBlockManager TaskDragManager Gestures Samples

/-- Folding the estimate accumulation of `calculateBlockPercentage` equals
the accumulator plus the sum of the estimated minutes. -/
lemma foldl_estimate_sum (l : List TaskIdentity) (acc : ℚ) :
    l.foldl
      (fun acc t =>
        match t.metadata.timeEstimate with
        | some e => acc + e.totalMinutes
        | none => acc) acc
      = acc +
        (l.map fun t =>
          match t.metadata.timeEstimate with
          | some e => (e.totalMinutes : ℚ)
          | none => 0).sum := by
  induction l generalizing acc with
  | nil => simp
  | cons t ts ih =>
    simp only [List.foldl_cons, List.map_cons, List.sum_cons, ih]
    cases t.metadata.timeEstimate with
    | none => simp
    | some e =>
      simp only
      ring

set_option maxRecDepth 4000 in
/-- C3.  The content-based similarity test `areTasksSimilar` holds exactly
when the Levenshtein distance is at most `min(floor(0.2*max(len1,len2)), 7)`
(with `floor(len*0.2) = len / 5`); two length-20 contents one substitution
apart are similar, and two of length 20 at edit distance 10 are not. -/
theorem C3_fuzzy_similarity_threshold :
    (∀ t1 t2 : Str,
      areTasksSimilar t1 t2 = true ↔
        levenshteinDistance (toUnits t1) (toUnits t2) ≤
          min (max (toUnits t1).length (toUnits t2).length / 5) 7) ∧
    areTasksSimilar lenTwenty1 lenTwenty2 = true ∧
    areTasksSimilar lenTwenty1 lenTwenty3 = false := by
  refine ⟨fun t1 t2 => ?_, by decide, by decide⟩
  simp [areTasksSimilar]

/-- C4.  `calculateBlockPercentage` returns
`100 * (sum of estimated minutes) / ((endTime - startTime) * 60)`, with
estimate-less tasks contributing 0 and no clamping; a one-hour block with
one 30-minute task reports 50, with two such tasks 100, and with none 0. -/
theorem C4_fill_percentage :
    (∀ block : TimeBlock,
      (calculateBlockPercentage block).1 =
        100 *
          ((block.tasks.map fun t =>
            match t.metadata.timeEstimate with
            | some e => (e.totalMinutes : ℚ)
            | none => 0).sum) /
          ((block.endTime - block.startTime) * 60)) ∧
    (calculateBlockPercentage (blockOneHour [task30a])).1 = 50 ∧
    (calculateBlockPercentage (blockOneHour [task30a, task30b])).1 = 100 ∧
    (calculateBlockPercentage (blockOneHour [])).1 = 0 := by
  refine ⟨fun block => ?_,
    by norm_num [calculateBlockPercentage, blockOneHour, task30a],
    by norm_num [calculateBlockPercentage, blockOneHour, task30a, task30b],
    by norm_num [calculateBlockPercentage, blockOneHour]⟩
  simp only [calculateBlockPercentage, foldl_estimate_sum, zero_add]
  ring

/-- C5.  Identity resolution is stable: two lines with the same canonical
content and the same file path receive the same identifier, whatever their
line numbers or parser settings (the hash input is
`canonicalContent|filePath`). -/
theorem C5_identity_stability :
    ∀ (t1 t2 fp : Str) (n1 n2 : Nat) (s1 s2 : PluginSettings),
      stripTaskMetadata t1 = stripTaskMetadata t2 →
      (generateTaskIdentity t1 fp n1 s1).identifier =
        (generateTaskIdentity t2 fp n2 s2).identifier := by
  intro t1 t2 fp n1 n2 s1 s2 h
  simp [generateTaskIdentity, h]

/-- Witness for C5 at two concrete lines sharing canonical content
`Buy milk` and file path `f.md`. -/
theorem C5_identity_stability_witness :
    stripTaskMetadata milkLine1 = stripTaskMetadata milkLine2 ∧
    (generateTaskIdentity milkLine1 "f.md".toList 3 settings0).identifier =
      (generateTaskIdentity milkLine2 "f.md".toList 9 settings0).identifier :=
  ⟨by decide,
   C5_identity_stability milkLine1 milkLine2 "f.md".toList 3 9 settings0 settings0
     (by decide)⟩

/-- C10.  A drop whose dragged identifier misses the task cache returns at
once: the block map is unchanged and `saveTimeBlocks` does not run. -/
theorem C10_unresolved_drop_is_noop :
    ∀ (cache : Str → Option TaskIdentity) (t : Str) (blocks : BlockMap)
      (tgt : Option Str) (uns : Bool),
      cache t = none →
      handleTaskDrop cache t blocks tgt uns = (blocks, false) := by
  intro cache t blocks tgt uns h
  simp [handleTaskDrop, h]

/-- Witness for C10: an empty cache and a drop onto block `b1`. -/
theorem C10_unresolved_drop_is_noop_witness :
    (fun _ : Str => (none : Option TaskIdentity)) "x".toList = none ∧
    handleTaskDrop (fun _ => none) "x".toList dragMap1
      (some "b1".toList) false = (dragMap1, false) :=
  ⟨rfl,
   C10_unresolved_drop_is_noop (fun _ => none) "x".toList dragMap1
     (some "b1".toList) false rfl⟩

/-- A string with no occurrence of the estimate marker makes the marker
scan fail. -/
lemma findEstimateMarker_eq_none (s : Str)
    (h : occursIn estimateMarker s = false) :
    TaskParser.findEstimateMarker s = none := by
  induction s with
  | nil => rfl
  | cons c rest ih =>
    simp only [occursIn, Bool.or_eq_false_iff] at h
    obtain ⟨h1, h2⟩ := h
    by_cases hc : c = stopwatchChar
    · subst hc
      cases rest with
      | nil => simp [TaskParser.findEstimateMarker]
      | cons v rest2 =>
        by_cases hv : v = vs16
        · subst hv
          simp [estimateMarker, List.isPrefixOf] at h1
        · simp only [TaskParser.findEstimateMarker, if_pos rfl, if_neg hv]
          exact ih h2
    · simp only [TaskParser.findEstimateMarker, if_neg hc]
      exact ih h2

/-- C8 counterexample.  On a line carrying the estimate marker with no
day/hour/minute token, the parser produces a zero estimate — the
`timeEstimate` field is not omitted, contrary to the claim. -/
theorem C8_counterexample :
    (TaskParser.parseTask markerOnlyLine settings0).timeEstimate =
        some { days := 0, hours := 0, minutes := 0, totalMinutes := 0 } ∧
    ¬ (TaskParser.parseTask markerOnlyLine settings0).timeEstimate = none := by
  refine ⟨by decide, by decide⟩

/-- C8 amended.  The parser matches the estimate marker followed by optional
day, hour and minute tokens in that order with
`totalMinutes = days*1440 + hours*60 + minutes`; a line without the marker
yields no estimate; but when the marker is present with all three tokens
absent, a zero estimate is produced rather than none. -/
theorem C8_time_estimate_parsing :
    (∀ (line : Str) (settings : TaskParser.PluginSettings),
      occursIn estimateMarker line = false →
      (TaskParser.parseTask line settings).timeEstimate = none) ∧
    (∀ (line : Str) (settings : TaskParser.PluginSettings)
        (est : TaskParser.TimeEstimate),
      (TaskParser.parseTask line settings).timeEstimate = some est →
      est.totalMinutes = est.days * 1440 + est.hours * 60 + est.minutes) ∧
    (TaskParser.parseTask markerOnlyLine settings0).timeEstimate =
      some { days := 0, hours := 0, minutes := 0, totalMinutes := 0 } ∧
    (TaskParser.parseTask fullEstimateLine settings0).timeEstimate =
      some { days := 1, hours := 2, minutes := 3, totalMinutes := 1563 } := by
  refine ⟨fun line settings h => ?_, fun line settings est h => ?_,
    by decide, by decide⟩
  · simp [TaskParser.parseTask, TaskParser.parseTimeEstimate,
      findEstimateMarker_eq_none line h]
  · simp only [TaskParser.parseTask, TaskParser.parseTimeEstimate] at h
    cases hm : TaskParser.findEstimateMarker line with
    | none => rw [hm] at h; exact absurd h (by simp)
    | some rest =>
      rw [hm] at h
      simp only [Option.some.injEq] at h
      subst h
      simp only
      ring

/-- Witness for C8 amended: a marker-less line parses to no estimate, and
the `totalMinutes` law at the estimate `1d 2h 3m`. -/
theorem C8_time_estimate_parsing_witness :
    (TaskParser.parseTask noMarkerLine settings0).timeEstimate = none ∧
    TaskParser.TimeEstimate.totalMinutes ⟨1, 2, 3, 1563⟩ =
      1 * 1440 + 2 * 60 + 3 :=
  ⟨C8_time_estimate_parsing.1 noMarkerLine settings0 (by decide),
   C8_time_estimate_parsing.2.1 fullEstimateLine settings0 ⟨1, 2, 3, 1563⟩
     (by decide)⟩

/-- C7.  Load resolution order: a persisted reference resolves by id in the
registry with status `NORMAL`; failing that, by content with status
`FOUND_BY_CONTENT`; failing both, a placeholder carrying the literal text
with status `NOT_FOUND` is synthesized; a missing or malformed fenced
section loads as the empty block map; and concretely, saving a block with
one resolved task and reloading it against a wiped registry yields that
block with its task `NOT_FOUND` and the persisted text preserved. -/
theorem C7_load_resolution_order :
    (∀ (reg : Str → Option TaskIdentity) (find : Str → List TaskIdentity)
        (ph : Str) (pt : PersistedTask) (i : Str) (ti : TaskIdentity),
      truthy pt.id = some i → reg i = some ti →
      processTaskRef reg find ph pt = ⟨ti, .NORMAL⟩) ∧
    (∀ (reg : Str → Option TaskIdentity) (find : Str → List TaskIdentity)
        (ph : Str) (pt : PersistedTask) (tx : Str) (ti : TaskIdentity)
        (rest : List TaskIdentity),
      (∀ i, truthy pt.id = some i → reg i = none) →
      truthy pt.text = some tx → find tx = ti :: rest →
      processTaskRef reg find ph pt = ⟨ti, .FOUND_BY_CONTENT⟩) ∧
    (∀ (reg : Str → Option TaskIdentity) (find : Str → List TaskIdentity)
        (ph : Str) (pt : PersistedTask) (tx : Str),
      (∀ i, truthy pt.id = some i → reg i = none) →
      truthy pt.text = some tx → find tx = [] →
      (processTaskRef reg find ph pt).status = .NOT_FOUND ∧
        (processTaskRef reg find ph pt).identity.originalContent =
          "- [ ] ".toList ++ tx) ∧
    (∀ (reg : Str → Option TaskIdentity) (find : Str → List TaskIdentity)
        (ph : Str) (doc : DayDoc),
      doc.payload = none ∨ doc.payload = some .malformed →
      loadTimeBlocks reg find ph doc = []) ∧
    loadTimeBlocks (fun _ => none) findNone []
        (saveTimeBlocksDoc docNoSection
          [("block-1".toList, blockOneHour [task30a])]) =
      [("block-1".toList, wipedLoadedBlock)] := by
  refine ⟨fun reg find ph pt i ti hid hreg => ?_,
    fun reg find ph pt tx ti rest hid htext hfind => ?_,
    fun reg find ph pt tx hid htext hfind => ?_,
    fun reg find ph doc hdoc => ?_, by decide⟩
  · simp [processTaskRef, hid, hreg]
  · cases h : truthy pt.id with
    | none => simp [processTaskRef, h, htext, hfind]
    | some i => simp [processTaskRef, h, hid i h, htext, hfind]
  · cases h : truthy pt.id with
    | none => simp [processTaskRef, h, htext, hfind]
    | some i => simp [processTaskRef, h, hid i h, htext, hfind]
  · rcases hdoc with h | h <;> simp [loadTimeBlocks, h]

/-- Witness for C7: each resolution branch exercised at concrete inputs. -/
theorem C7_load_resolution_order_witness :
    processTaskRef regA findNone [] ⟨some task30a.identifier, none⟩ =
        ⟨task30a, .NORMAL⟩ ∧
    processTaskRef (fun _ => none) (fun _ => [task30b]) []
        ⟨none, some "walk".toList⟩ = ⟨task30b, .FOUND_BY_CONTENT⟩ ∧
    (processTaskRef (fun _ => none) findNone "ph".toList
        ⟨none, some "lost".toList⟩).status = .NOT_FOUND ∧
    (processTaskRef (fun _ => none) findNone "ph".toList
        ⟨none, some "lost".toList⟩).identity.originalContent =
      "- [ ] ".toList ++ "lost".toList ∧
    loadTimeBlocks regA findNone [] ⟨"# day".toList, none, []⟩ = [] := by
  have h3 := C7_load_resolution_order.2.2.1 (fun _ => none) findNone
    "ph".toList ⟨none, some "lost".toList⟩ "lost".toList
    (fun i h => by simp [truthy] at h) (by decide) rfl
  refine ⟨?_, ?_, h3.1, h3.2, ?_⟩
  · exact C7_load_resolution_order.1 regA findNone [] _ task30a.identifier
      task30a (by decide) (by decide)
  · exact C7_load_resolution_order.2.1 (fun _ => none) (fun _ => [task30b]) []
      _ "walk".toList task30b []
      (fun i h => by simp [truthy] at h) (by decide) rfl
  · exact C7_load_resolution_order.2.2.2.1 regA findNone []
      ⟨"# day".toList, none, []⟩ (Or.inl rfl)

/-- C9 counterexample.  Saving a block holding `task30a` writes the task
text with the estimate marker still present: the persisted text is the line
with only its checkbox stripped, not the canonical content with metadata
markers stripped, contrary to the claim. -/
theorem C9_counterexample :
    (saveTimeBlocksData [("block-1".toList, blockOneHour [task30a])]).map
        (fun p => p.2.tasks.map (·.text)) =
      [[some "Buy milk ⏱️ 30m".toList]] ∧
    stripTaskMetadata task30a.originalContent = "Buy milk".toList ∧
    ¬ (some "Buy milk ⏱️ 30m".toList =
        some (stripTaskMetadata task30a.originalContent)) := by
  refine ⟨by decide, by decide, by decide⟩

/-- C9 amended.  Save reduces every task of every block to an `{id, text}`
pair in which `text` is the original line with its leading checkbox marker
stripped and the result trimmed (metadata markers are retained — not the
fully canonical content), keeps the id, title and bounds of every block, and
replaces the existing fenced `timeBlocks` section of the document or
appends one after a blank line if absent. -/
theorem C9_save_serialization :
    (∀ t : TaskIdentity,
      (saveTaskRef t).id = some t.identifier ∧
        (saveTaskRef t).text =
          some (trimChars (stripCheckbox t.originalContent))) ∧
    (∀ blocks : List (Str × TimeBlock),
      (saveTimeBlocksData blocks).map
          (fun p => (p.1, p.2.id, p.2.title, p.2.startTime, p.2.endTime,
            p.2.tasks.map PersistedTask.id)) =
        blocks.map
          (fun p => (p.1, p.2.id, p.2.title, p.2.startTime, p.2.endTime,
            p.2.tasks.map fun t => some t.identifier))) ∧
    (∀ (doc : DayDoc) (blocks : List (Str × TimeBlock)),
      (saveTimeBlocksDoc doc blocks).payload =
        some (.blocksData (saveTimeBlocksData blocks))) ∧
    (∀ (doc : DayDoc) (blocks : List (Str × TimeBlock)),
      ¬ doc.payload = none →
      (saveTimeBlocksDoc doc blocks).pre = doc.pre ∧
        (saveTimeBlocksDoc doc blocks).post = doc.post) ∧
    (∀ (doc : DayDoc) (blocks : List (Str × TimeBlock)),
      doc.payload = none →
      (saveTimeBlocksDoc doc blocks).pre = doc.pre ++ '\n' :: '\n' :: [] ∧
        (saveTimeBlocksDoc doc blocks).post = []) := by
  refine ⟨fun t => ⟨rfl, rfl⟩, fun blocks => ?_,
    fun doc blocks => ?_, fun doc blocks h => ?_, fun doc blocks h => ?_⟩
  · simp [saveTimeBlocksData, saveTaskRef]
  · cases h : doc.payload <;> simp [saveTimeBlocksDoc, h]
  · cases hp : doc.payload with
    | none => exact absurd hp h
    | some payload => simp [saveTimeBlocksDoc, hp]
  · simp [saveTimeBlocksDoc, h]

/-- Witness for C9 amended: the replace branch at a document carrying a
section and the append branch at one without. -/
theorem C9_save_serialization_witness :
    ¬ (DayDoc.payload ⟨[], some .malformed, "tail".toList⟩) = none ∧
    (saveTimeBlocksDoc ⟨[], some .malformed, "tail".toList⟩ []).pre = [] ∧
    (saveTimeBlocksDoc ⟨[], some .malformed, "tail".toList⟩ []).post =
      "tail".toList ∧
    docNoSection.payload = none ∧
    (saveTimeBlocksDoc docNoSection []).pre =
      "# day".toList ++ '\n' :: '\n' :: [] ∧
    (saveTimeBlocksDoc docNoSection []).post = [] := by
  have h1 := C9_save_serialization.2.2.2.1 ⟨[], some .malformed, "tail".toList⟩
    [] (by simp)
  have h2 := C9_save_serialization.2.2.2.2 docNoSection [] rfl
  exact ⟨by simp, h1.1, h1.2, rfl, h2.1, h2.2⟩

/-- Whatever the document held, after a save its payload is the serialized
block data. -/
lemma saveTimeBlocksDoc_payload (doc : DayDoc)
    (blocks : List (Str × TimeBlock)) :
    (saveTimeBlocksDoc doc blocks).payload =
      some (.blocksData (saveTimeBlocksData blocks)) := by
  cases h : doc.payload <;> simp [saveTimeBlocksDoc, h]

/-- A saved task reference whose identifier is nonempty and still in the
registry (under its own key) loads back as that registry entry, `NORMAL`. -/
lemma processTaskRef_saveTaskRef (reg : Str → Option TaskIdentity)
    (find : Str → List TaskIdentity) (ph : Str) (t ti : TaskIdentity)
    (hne : ¬ t.identifier = []) (hreg : reg t.identifier = some ti) :
    processTaskRef reg find ph (saveTaskRef t) = ⟨ti, .NORMAL⟩ := by
  simp [processTaskRef, saveTaskRef, truthy, hne, hreg]

/-- C2.  Round-trip: when every task of every block has a nonempty
identifier under which the registry returns an entry carrying that same
identifier, loading the document produced by saving the map reproduces the
block keys, ids, titles, bounds and resolved task identifiers. -/
theorem C2_round_trip :
    ∀ (reg : Str → Option TaskIdentity) (find : Str → List TaskIdentity)
      (ph : Str) (doc : DayDoc) (blocks : List (Str × TimeBlock)),
      (∀ p ∈ blocks, ∀ t ∈ p.2.tasks,
        ¬ t.identifier = [] ∧
          ∃ ti, reg t.identifier = some ti ∧ ti.identifier = t.identifier) →
      (loadTimeBlocks reg find ph (saveTimeBlocksDoc doc blocks)).map
          (fun p => (p.1, p.2.id, p.2.title, p.2.startTime, p.2.endTime,
            p.2.tasks.map fun t => t.identity.identifier)) =
        blocks.map
          (fun p => (p.1, p.2.id, p.2.title, p.2.startTime, p.2.endTime,
            p.2.tasks.map fun t => t.identifier)) := by
  intro reg find ph doc blocks h
  simp only [loadTimeBlocks, saveTimeBlocksDoc_payload, saveTimeBlocksData,
    List.map_map]
  refine List.map_congr_left fun p hp => ?_
  simp only [Function.comp, loadBlock, List.map_map]
  refine congrArg _ (congrArg _ (congrArg _ (congrArg _ (congrArg _ ?_))))
  refine List.map_congr_left fun t ht => ?_
  obtain ⟨hne, ti, hreg, hid⟩ := h p hp t ht
  simp [Function.comp, processTaskRef_saveTaskRef reg find ph t ti hne hreg,
    hid]

/-- Witness for C2 on a one-block, one-task map resolvable in `regA`. -/
theorem C2_round_trip_witness :
    ¬ task30a.identifier = [] ∧
    regA task30a.identifier = some task30a ∧
    (loadTimeBlocks regA findNone []
        (saveTimeBlocksDoc docNoSection roundTripBlocks)).map
          (fun p => (p.1, p.2.id, p.2.title, p.2.startTime, p.2.endTime,
            p.2.tasks.map fun t => t.identity.identifier)) =
      roundTripBlocks.map
          (fun p => (p.1, p.2.id, p.2.title, p.2.startTime, p.2.endTime,
            p.2.tasks.map fun t => t.identifier)) := by
  refine ⟨by decide, by decide, ?_⟩
  refine C2_round_trip regA findNone [] docNoSection roundTripBlocks ?_
  intro p hp t ht
  simp only [roundTripBlocks, List.mem_singleton] at hp
  subst hp
  simp only [blockOneHour, List.mem_singleton] at ht
  subst ht
  exact ⟨by decide, task30a, by decide, rfl⟩

/-- Quantization lands on a quarter-hour multiple. -/
lemma quantizeQuarter_aligned (x : ℚ) : QuarterAligned (quantizeQuarter x) :=
  ⟨round (x * 4), rfl⟩

/-- Quarter alignment is closed under addition. -/
lemma quarterAligned_add {a b : ℚ} (ha : QuarterAligned a)
    (hb : QuarterAligned b) : QuarterAligned (a + b) := by
  obtain ⟨k1, hk1⟩ := ha
  obtain ⟨k2, hk2⟩ := hb
  exact ⟨k1 + k2, by rw [hk1, hk2]; push_cast; ring⟩

/-- Quarter alignment is closed under subtraction. -/
lemma quarterAligned_sub {a b : ℚ} (ha : QuarterAligned a)
    (hb : QuarterAligned b) : QuarterAligned (a - b) := by
  obtain ⟨k1, hk1⟩ := ha
  obtain ⟨k2, hk2⟩ := hb
  exact ⟨k1 - k2, by rw [hk1, hk2]; push_cast; ring⟩

/-- A drag `mousemove` preserves the block invariant (the duration comes
from the state captured at `mousedown`). -/
lemma moveStep_blockInv {orig b : BlockTimes} (x : ℚ)
    (horig : BlockInv orig) (hb : BlockInv b) :
    BlockInv (moveStep orig b x) := by
  obtain ⟨ho1, ho2, _, ho4, _⟩ := horig
  simp only [moveStep]
  split
  case isTrue hcond =>
    exact ⟨quantizeQuarter_aligned x,
      quarterAligned_add (quantizeQuarter_aligned x)
        (quarterAligned_sub ho2 ho1),
      hcond.1, by dsimp only; linarith, hcond.2⟩
  case isFalse => exact hb

/-- A top-edge resize `mousemove` preserves the block invariant. -/
lemma resizeTopStep_blockInv {b : BlockTimes} (x : ℚ) (hb : BlockInv b) :
    BlockInv (resizeTopStep b x) := by
  obtain ⟨h1, h2, h3, h4, h5⟩ := hb
  simp only [resizeTopStep]
  split
  case isTrue hcond =>
    exact ⟨quantizeQuarter_aligned x, h2, hcond.1, hcond.2, h5⟩
  case isFalse => exact ⟨h1, h2, h3, h4, h5⟩

/-- A bottom-edge resize `mousemove` preserves the block invariant. -/
lemma resizeBottomStep_blockInv {b : BlockTimes} (x : ℚ) (hb : BlockInv b) :
    BlockInv (resizeBottomStep b x) := by
  obtain ⟨h1, h2, h3, h4, h5⟩ := hb
  simp only [resizeBottomStep]
  split
  case isTrue hcond =>
    exact ⟨h1, quantizeQuarter_aligned x, h3, hcond.2, hcond.1⟩
  case isFalse => exact ⟨h1, h2, h3, h4, h5⟩

/-- Folding any invariant-preserving step preserves the invariant. -/
lemma foldl_blockInv {f : BlockTimes → ℚ → BlockTimes}
    (hf : ∀ b x, BlockInv b → BlockInv (f b x)) :
    ∀ (xs : List ℚ) (b : BlockTimes), BlockInv b →
      BlockInv (xs.foldl f b) := by
  intro xs
  induction xs with
  | nil => intro b hb; simpa using hb
  | cons x xs ih =>
    intro b hb
    simpa [List.foldl_cons] using ih _ (hf b x hb)

/-- Every whole gesture preserves the block invariant. -/
lemma applyGesture_blockInv {b : BlockTimes} (g : BlockGesture)
    (hb : BlockInv b) : BlockInv (applyGesture b g) := by
  cases g with
  | move xs =>
    exact foldl_blockInv (fun b' x h => moveStep_blockInv x hb h) xs b hb
  | resizeTop xs => exact foldl_blockInv (fun b' x h => resizeTopStep_blockInv x h) xs b hb
  | resizeBottom xs => exact foldl_blockInv (fun b' x h => resizeBottomStep_blockInv x h) xs b hb

/-- Every drag `mousemove` leaves the duration at the `mousedown` value. -/
lemma foldl_moveStep_duration (orig : BlockTimes) :
    ∀ (xs : List ℚ) (cur : BlockTimes),
      cur.endTime - cur.startTime = orig.endTime - orig.startTime →
      (xs.foldl (moveStep orig) cur).endTime -
          (xs.foldl (moveStep orig) cur).startTime =
        orig.endTime - orig.startTime := by
  intro xs
  induction xs with
  | nil => intro cur h; simpa using h
  | cons x xs ih =>
    intro cur h
    rw [List.foldl_cons]
    apply ih
    simp only [moveStep]
    split
    · dsimp only
      ring
    · exact h

/-- A top-edge resize never touches the end bound. -/
lemma foldl_resizeTop_endTime :
    ∀ (xs : List ℚ) (cur : BlockTimes),
      (xs.foldl resizeTopStep cur).endTime = cur.endTime := by
  intro xs
  induction xs with
  | nil => intro cur; simp
  | cons x xs ih =>
    intro cur
    rw [List.foldl_cons, ih]
    simp only [resizeTopStep]
    split <;> rfl

/-- A bottom-edge resize never touches the start bound. -/
lemma foldl_resizeBottom_startTime :
    ∀ (xs : List ℚ) (cur : BlockTimes),
      (xs.foldl resizeBottomStep cur).startTime = cur.startTime := by
  intro xs
  induction xs with
  | nil => intro cur; simp
  | cons x xs ih =>
    intro cur
    rw [List.foldl_cons, ih]
    simp only [resizeBottomStep]
    split <;> rfl

/-- C6.  Starting from a block satisfying the bounds invariant, any sequence
of move and resize gestures keeps `startTime` and `endTime` quarter-hour
multiples with `0 ≤ startTime < endTime ≤ 24`; a move gesture preserves the
duration (both bounds shift together), and a resize gesture moves only the
grabbed edge. -/
theorem C6_quantization_and_bounds :
    (∀ (b : BlockTimes) (gs : List BlockGesture),
      BlockInv b → BlockInv (applyGestures b gs)) ∧
    (∀ (b : BlockTimes) (xs : List ℚ),
      (applyGesture b (.move xs)).endTime -
          (applyGesture b (.move xs)).startTime =
        b.endTime - b.startTime) ∧
    (∀ (b : BlockTimes) (xs : List ℚ),
      (applyGesture b (.resizeTop xs)).endTime = b.endTime) ∧
    (∀ (b : BlockTimes) (xs : List ℚ),
      (applyGesture b (.resizeBottom xs)).startTime = b.startTime) := by
  refine ⟨fun b gs => ?_, fun b xs => ?_, fun b xs => ?_, fun b xs => ?_⟩
  · intro hb
    induction gs generalizing b with
    | nil => simpa [applyGestures] using hb
    | cons g gs ih =>
      simpa [applyGestures, List.foldl_cons] using
        ih (applyGesture b g) (applyGesture_blockInv g hb)
  · exact foldl_moveStep_duration b xs b rfl
  · exact foldl_resizeTop_endTime xs b
  · exact foldl_resizeBottom_startTime xs b

/-- Witness for C6: the 9-to-10 block, dragged to 9:30 and stretched to 11,
still satisfies the invariant. -/
theorem C6_quantization_and_bounds_witness :
    BlockInv times0 ∧
    BlockInv (applyGestures times0
      [.move [(9.5 : ℚ)], .resizeBottom [(11 : ℚ)]]) := by
  have h0 : BlockInv times0 :=
    ⟨⟨36, by norm_num [times0]⟩, ⟨40, by norm_num [times0]⟩,
      by norm_num [times0], by norm_num [times0], by norm_num [times0]⟩
  exact ⟨h0, C6_quantization_and_bounds.1 times0 _ h0⟩

/-- Removing a task from every block does not change the keys. -/
lemma keys_removeTaskEverywhere (a : Str) (bs : BlockMap) :
    (removeTaskEverywhere a bs).map Prod.fst = bs.map Prod.fst := by
  simp [removeTaskEverywhere, List.map_map, Function.comp]

/-- Pushing into the target block does not change the keys. -/
lemma keys_pushTaskTo (tid a : Str) (bs : BlockMap) :
    (pushTaskTo tid a bs).map Prod.fst = bs.map Prod.fst := by
  simp only [pushTaskTo, List.map_map]
  refine List.map_congr_left fun p _ => ?_
  by_cases h : p.1 = tid <;> simp [h]

/-- Removal can only shrink the number of blocks containing any task. -/
lemma blocksContaining_remove_le (t a : Str) (bs : BlockMap) :
    blocksContaining t (removeTaskEverywhere a bs) ≤ blocksContaining t bs := by
  simp only [blocksContaining, removeTaskEverywhere, List.countP_map]
  refine List.countP_mono_left fun p _ h => ?_
  simp only [Function.comp, List.any_eq_true, List.mem_filter,
    decide_eq_true_eq] at h ⊢
  obtain ⟨r, ⟨hr, _⟩, hrt⟩ := h
  exact ⟨r, hr, hrt⟩

/-- After removal, no block contains the removed identifier. -/
lemma blocksContaining_remove_self (a : Str) (bs : BlockMap) :
    blocksContaining a (removeTaskEverywhere a bs) = 0 := by
  simp only [blocksContaining, removeTaskEverywhere, List.countP_map]
  rw [List.countP_eq_zero]
  intro p _
  simp [Function.comp, List.any_eq_true, List.mem_filter]

/-- Pushing one task reference leaves the membership of every other task
identifier unchanged. -/
lemma blocksContaining_push_ne (s tid a : Str) (h : ¬ s = a)
    (bs : BlockMap) :
    blocksContaining s (pushTaskTo tid a bs) = blocksContaining s bs := by
  simp only [blocksContaining, pushTaskTo, List.countP_map]
  refine List.countP_congr fun p _ => ?_
  have h' : ¬ (a = s) := fun hh => h hh.symm
  by_cases hp : p.1 = tid <;>
    simp [hp, Function.comp, List.any_append, getTaskIdentifier, h']

/-- With pairwise-distinct keys, at most one entry has a given key. -/
lemma countP_key_le_one (tid : Str) :
    ∀ bs : BlockMap, (bs.map Prod.fst).Nodup →
      (bs.countP fun p => decide (p.1 = tid)) ≤ 1 := by
  intro bs
  induction bs with
  | nil => intro _; simp
  | cons p bs ih =>
    intro hnd
    rw [List.map_cons, List.nodup_cons] at hnd
    by_cases hp : p.1 = tid
    · have hz : (bs.countP fun q => decide (q.1 = tid)) = 0 := by
        rw [List.countP_eq_zero]
        intro q hq
        simp only [decide_eq_true_eq]
        intro hqt
        exact hnd.1 (by rw [hp, ← hqt]; exact List.mem_map_of_mem Prod.fst hq)
      simp [List.countP_cons, hp, hz]
    · simpa [List.countP_cons, hp] using ih hnd.2

/-- Pushing the dropped identifier into the target of a map that no longer
contains it yields at most one containing block (the key of the target occurs at
most once). -/
lemma blocksContaining_push_self_le (tid a : Str) (bs : BlockMap)
    (hnd : (bs.map Prod.fst).Nodup) (h0 : blocksContaining a bs = 0) :
    blocksContaining a (pushTaskTo tid a bs) ≤ 1 := by
  have hz : ∀ p ∈ bs, ¬ ((p.2.tasks.any fun r =>
      getTaskIdentifier r = a) = true) :=
    List.countP_eq_zero.mp (by simpa [blocksContaining] using h0)
  simp only [blocksContaining, pushTaskTo, List.countP_map]
  refine le_trans (List.countP_mono_left ?_) (countP_key_le_one tid bs hnd)
  intro p hp h
  by_cases hpt : p.1 = tid
  · simpa using hpt
  · exact absurd (by simpa [Function.comp, hpt] using h) (hz p hp)

/-- One drop preserves distinct keys and the at-most-one-block invariant. -/
lemma handleTaskDrop_preserves (cache : Str → Option TaskIdentity)
    (t : Str) (blocks : BlockMap) (tgt : Option Str) (uns : Bool)
    (hnd : KeysNodup blocks) (hinv : AtMostOneBlock blocks) :
    KeysNodup (handleTaskDrop cache t blocks tgt uns).1 ∧
      AtMostOneBlock (handleTaskDrop cache t blocks tgt uns).1 := by
  have hremove : KeysNodup (removeTaskEverywhere t blocks) ∧
      AtMostOneBlock (removeTaskEverywhere t blocks) := by
    constructor
    · unfold KeysNodup
      rw [keys_removeTaskEverywhere]
      exact hnd
    · intro s
      exact le_trans (blocksContaining_remove_le s t blocks) (hinv s)
  have hpushrem : ∀ tid,
      KeysNodup (pushTaskTo tid t (removeTaskEverywhere t blocks)) ∧
        AtMostOneBlock (pushTaskTo tid t (removeTaskEverywhere t blocks)) := by
    intro tid
    constructor
    · unfold KeysNodup
      rw [keys_pushTaskTo, keys_removeTaskEverywhere]
      exact hnd
    · intro s
      by_cases hs : s = t
      · subst hs
        refine blocksContaining_push_self_le tid s _ ?_ ?_
        · rw [keys_removeTaskEverywhere]
          exact hnd
        · exact blocksContaining_remove_self s blocks
      · rw [blocksContaining_push_ne s tid t hs]
        exact hremove.2 s
  cases h : cache t with
  | none =>
    simp only [handleTaskDrop, h]
    exact ⟨hnd, hinv⟩
  | some ti =>
    simp only [handleTaskDrop, h]
    cases htr : truthy tgt with
    | none =>
      cases uns with
      | false => simpa using ⟨hnd, hinv⟩
      | true => simpa using hremove
    | some tid =>
      cases hlk : lookupBlock blocks tid with
      | none =>
        cases uns with
        | false => simpa [hlk] using ⟨hnd, hinv⟩
        | true => simpa [hlk] using hremove
      | some tb =>
        by_cases hany : (tb.tasks.any fun r => getTaskIdentifier r = t) = true
        · simpa [hlk, hany] using ⟨hnd, hinv⟩
        · simpa [hlk, hany] using hpushrem tid

/-- C1.  Starting from a block map with pairwise-distinct keys in which
every task identifier appears in at most one block, any sequence of drops
through `handleTaskDrop` — onto blocks or onto the unscheduled zone —
preserves the at-most-one-block invariant. -/
theorem C1_at_most_one_block :
    ∀ (ops : List DropOp) (blocks : BlockMap),
      KeysNodup blocks → AtMostOneBlock blocks →
      AtMostOneBlock (applyDrops ops blocks) := by
  intro ops
  induction ops with
  | nil =>
    intro blocks _ hinv
    simpa [applyDrops] using hinv
  | cons op rest ih =>
    intro blocks hnd hinv
    have hstep := handleTaskDrop_preserves op.cache op.taskIdentifier blocks
      op.targetBlockId op.isUnscheduled hnd hinv
    simpa [applyDrops, List.foldl_cons] using ih _ hstep.1 hstep.2

/-- Witness for C1: the one-block map `dragMap1` and one drop of `task30a`
onto `b1`. -/
theorem C1_at_most_one_block_witness :
    KeysNodup dragMap1 ∧ AtMostOneBlock dragMap1 ∧
      AtMostOneBlock (applyDrops [dropOp1] dragMap1) := by
  have h1 : KeysNodup dragMap1 := by unfold KeysNodup; decide
  have h2 : AtMostOneBlock dragMap1 := fun s =>
    le_trans (List.countP_le_length _) (le_of_eq (by decide))
  exact ⟨h1, h2, C1_at_most_one_block [dropOp1] dragMap1 h1 h2⟩

end Claims

end TaskExtender
